import Mathlib

/-!
A shallow embedding of the JMESPath expression parser (`src/parser.rs`).

The parser is a Pratt (top-down operator precedence) parser over a token
stream produced by an external lexer.  The lexer itself is not part of the
sources; the token kinds, their binding powers, their sizes, and their
string names are modelled from the specification's token contract.  All of
the parsing logic (`Parser::parse`, `Parser::expr`, the nud/led handlers and
the bracket/brace sub-parsers) is translated function by function from
`src/parser.rs`.

Rust's mutable `Parser` struct becomes an explicit state record `PState`
that every function threads through.  Loops become tail-recursive helper
functions.  Because the source contains loops whose termination is exactly
one of the properties under scrutiny, all mutually recursive functions take
a fuel argument; `PRes.nofuel` reports fuel exhaustion.  `Result<T, E>`
becomes `PRes`, with an extra `PRes.panicked` constructor modelling the
places where the Rust code calls `unwrap()` on a value that may be `Err` or
`None` (and where an array index may be out of bounds).
-/

/-- The JSON value type carried by literal tokens.  The parser treats it as
an opaque value; only `Json.str` is ever constructed by the parser itself
(for multi-hash keys), so a small value type suffices. -/
inductive Json where
  | str : String → Json
  | num : Int → Json
  | bool : Bool → Json
  | null : Json
deriving DecidableEq, Repr

/-- Comparators (i.e., less than, greater than, etc.), from `src/parser.rs`. -/
inductive Comparator where
  | Eq | Lt | Le | Ne | Ge | Gt
deriving DecidableEq, Repr

mutual
/-- The abstract syntax tree of a JMESPath expression, from `src/parser.rs`. -/
inductive Ast where
  | Comparison : Comparator → Ast → Ast → Ast
  | CurrentNode : Ast
  | Expref : Ast → Ast
  | Flatten : Ast → Ast
  | Function : Char → List Ast → Ast
  | Identifier : String → Ast
  | Index : Int → Ast
  | Literal : Json → Ast
  | MultiList : List Ast → Ast
  | MultiHash : List KeyValuePair → Ast
  | ArrayProjection : Ast → Ast → Ast
  | ObjectProjection : Ast → Ast → Ast
  | Or : Ast → Ast → Ast
  | Slice : Option Int → Option Int → Option Int → Ast
  | Subexpr : Ast → Ast → Ast
deriving Repr

/-- A key value pair in a multi-hash, from `src/parser.rs`. -/
inductive KeyValuePair where
  | mk : Ast → Ast → KeyValuePair
deriving Repr
end

/-- The key of a key value pair. -/
def KeyValuePair.key : KeyValuePair → Ast
  | ⟨k, _⟩ => k

/-- The value of a key value pair. -/
def KeyValuePair.value : KeyValuePair → Ast
  | ⟨_, v⟩ => v

/-- A parse failure: message, line and column, from `src/parser.rs`. -/
structure ParseError where
  msg : String
  line : Nat
  col : Nat
deriving DecidableEq, Repr

/-- Token kinds of the external lexer, as consumed by `src/parser.rs`
(each variant appearing in a `match` of the parser, plus the payload-carrying
variants `Identifier`, `Number` and `Literal`, whose second component is the
token's size in bytes). -/
inductive Token where
  | at | dot | star | flatten | or | pipe
  | lbracket | rbracket | lbrace | rbrace
  | comma | colon | ampersand | filter
  | identifier : String → Nat → Token
  | number : Int → Nat → Token
  | literal : Json → Nat → Token
  | whitespace
  | eof
deriving DecidableEq, Repr

/-- Modelled from the spec: each token reports a textual length in source
bytes, used only to advance the position counter (`@` is 1 byte, `||` and
the flatten shorthand `[]` and the filter opener are 2 bytes, payload tokens
carry their own size, the end-of-stream marker is empty). -/
def Token.size : Token → Nat
  | .at => 1 | .dot => 1 | .star => 1 | .flatten => 2 | .or => 2 | .pipe => 1
  | .lbracket => 1 | .rbracket => 1 | .lbrace => 1 | .rbrace => 1
  | .comma => 1 | .colon => 1 | .ampersand => 1 | .filter => 2
  | .identifier _ n => n
  | .number _ n => n
  | .literal _ n => n
  | .whitespace => 1
  | .eof => 0

/-- Modelled from the spec: each token reports a left binding power used
purely for precedence comparisons.  The infix handlers of the spec (pipe,
logical or, flatten shorthand, dot, bracket) carry positive binding powers,
tokens that can never extend an expression carry 0, and the projection-RHS
threshold of 10 separates the two groups the way `projection_rhs` expects
(flatten below it, star/filter/dot/lbrace/lbracket above it). -/
def Token.lbp : Token → Nat
  | .pipe => 1
  | .or => 2
  | .flatten => 9
  | .star => 20
  | .filter => 21
  | .dot => 40
  | .lbrace => 50
  | .lbracket => 55
  | _ => 0

/-- Modelled from the spec: the string name of a token kind, as tested by
`Parser::expect` against its pipe separated `edible` list. -/
def Token.token_to_string : Token → String
  | .at => "At" | .dot => "Dot" | .star => "Star" | .flatten => "Flatten"
  | .or => "Or" | .pipe => "Pipe"
  | .lbracket => "Lbracket" | .rbracket => "Rbracket"
  | .lbrace => "Lbrace" | .rbrace => "Rbrace"
  | .comma => "Comma" | .colon => "Colon"
  | .ampersand => "Ampersand" | .filter => "Filter"
  | .identifier _ _ => "Identifier"
  | .number _ _ => "Number"
  | .literal _ _ => "Literal"
  | .whitespace => "Whitespace"
  | .eof => "Eof"

/-- Debug rendering of a `Json` value (Rust's `{:?}`), used only inside
error message strings. -/
def jsonDebug : Json → String
  | .str s => "String(\"" ++ s ++ "\")"
  | .num n => "I64(" ++ toString n ++ ")"
  | .bool b => "Boolean(" ++ toString b ++ ")"
  | .null => "Null"

/-- Debug rendering of a token (Rust's `{:?}`), used only inside error
message strings. -/
def tokenDebug : Token → String
  | .at => "At" | .dot => "Dot" | .star => "Star" | .flatten => "Flatten"
  | .or => "Or" | .pipe => "Pipe"
  | .lbracket => "Lbracket" | .rbracket => "Rbracket"
  | .lbrace => "Lbrace" | .rbrace => "Rbrace"
  | .comma => "Comma" | .colon => "Colon"
  | .ampersand => "Ampersand" | .filter => "Filter"
  | .identifier s n => "Identifier(\"" ++ s ++ "\", " ++ toString n ++ ")"
  | .number v n => "Number(" ++ toString v ++ ", " ++ toString n ++ ")"
  | .literal v n => "Literal(" ++ jsonDebug v ++ ", " ++ toString n ++ ")"
  | .whitespace => "Whitespace"
  | .eof => "Eof"

/-- Substring test: Rust's `str::contains`, used by `Parser::expect`. -/
def strContains (hay needle : String) : Bool :=
  hay.data.tails.any (fun t => needle.data.isPrefixOf t)

/-- The mutable parser state of `src/parser.rs`: the remaining token stream,
the current token, and the running byte offset into the expression. -/
structure PState where
  stream : List Token
  token : Token
  pos : Nat
deriving DecidableEq, Repr

/-- Outcome of a parser function: Rust's `Result<T, ParseError>`, extended
with `nofuel` (the fuel ran out — the Rust code would still be looping) and
`panicked` (the Rust code would have panicked, e.g. `unwrap()` on an `Err`). -/
inductive PRes (α : Type) where
  | ok : α → PRes α
  | err : ParseError → PRes α
  | nofuel : PRes α
  | panicked : PRes α
deriving DecidableEq, Repr

/-- Rust's `try!`: continue with the value and the updated state on `Ok`,
propagate everything else. -/
def tryBind {α β : Type} (r : PState × PRes α) (k : PState → α → PState × PRes β) :
    PState × PRes β :=
  match r with
  | (st, PRes.ok a) => k st a
  | (st, PRes.err e) => (st, PRes.err e)
  | (st, PRes.nofuel) => (st, PRes.nofuel)
  | (st, PRes.panicked) => (st, PRes.panicked)

/-- Source `Parser::err`: a formatted `ParseError` carrying the current token, the
running offset as column, and line 0. -/
def mkErr (st : PState) (m : String) : ParseError :=
  { msg := "Error at " ++ tokenDebug st.token ++ " token, " ++ toString st.pos ++ ": " ++ m
    line := 0
    col := st.pos }

/-- Source `Parser::advance`: add the current token's size to the offset, then pull
the next non-whitespace token from the stream into `token`; an exhausted
stream leaves `token` unchanged.  Note that the Rust loop adds
`self.token.size()` once per pulled token and `self.token` is not updated
while whitespace is being skipped. -/
def advanceAux : List Token → Token → Nat → PState
  | [], tok, pos => ⟨[], tok, pos + tok.size⟩
  | Token.whitespace :: rest, tok, pos => advanceAux rest tok (pos + tok.size)
  | t :: rest, tok, pos => ⟨rest, t, pos + tok.size⟩

/-- Source `Parser::advance` on the parser state. -/
def advanceSt (st : PState) : PState :=
  advanceAux st.stream st.token st.pos

/-- Source `Parser::expect`: advance, then require the new current token's name to
occur in the pipe separated `edible` string. -/
def expectF (st : PState) (edible : String) : PState × PRes Ast :=
  let st' := advanceSt st
  if strContains edible (Token.token_to_string st'.token) then
    (st', PRes.ok Ast.CurrentNode)
  else
    (st', PRes.err (mkErr st' ("Expected one of the following tokens: \"" ++ edible ++ "\"")))

/-- Source `Parser::nud_at`. -/
def nudAtF (st : PState) : PState × PRes Ast :=
  (advanceSt st, PRes.ok Ast.CurrentNode)

/-- Source `Parser::nud_identifier`. -/
def nudIdentifierF (st : PState) (s : String) : PState × PRes Ast :=
  (advanceSt st, PRes.ok (Ast.Identifier s))

/-- Source `Parser::nud_literal`. -/
def nudLiteralF (st : PState) (v : Json) : PState × PRes Ast :=
  (advanceSt st, PRes.ok (Ast.Literal v))

/-- Source operation `parts[pos] = Some(value)` on the three-slot `parts` array of
`Parser::parse_array_index` (the caller guards `pos ≤ 2`). -/
def setPart (p : Option Int × Option Int × Option Int) (i : Nat) (v : Int) :
    Option Int × Option Int × Option Int :=
  match i with
  | 0 => (some v, p.2.1, p.2.2)
  | 1 => (p.1, some v, p.2.2)
  | _ => (p.1, p.2.1, some v)

mutual
/-- Source `Parser::expr`: dispatch the current token to its nud handler, then run
the led loop while `rbp < lbp`.  The `Eof` and catch-all arms return their
error immediately; the handler arms fall through to the led loop even when
they produced an `Err` (the loop then calls `left.unwrap()`). -/
def exprF : Nat → PState → Nat → PState × PRes Ast
  | 0, st, _ => (st, PRes.nofuel)
  | fuel+1, st, rbp =>
    match st.token with
    | Token.at => let r := nudAtF st; ledLoopF fuel r.1 rbp r.2
    | Token.identifier s _ => let r := nudIdentifierF st s; ledLoopF fuel r.1 rbp r.2
    | Token.star => let r := nudStarF fuel st; ledLoopF fuel r.1 rbp r.2
    | Token.lbracket => let r := nudLbracketF fuel st; ledLoopF fuel r.1 rbp r.2
    | Token.flatten => let r := nudFlattenF fuel st; ledLoopF fuel r.1 rbp r.2
    | Token.literal v _ => let r := nudLiteralF st v; ledLoopF fuel r.1 rbp r.2
    | Token.lbrace => let r := nudLbraceF fuel st; ledLoopF fuel r.1 rbp r.2
    | Token.eof => (st, PRes.err (mkErr st "Unexpected EOF"))
    | _ => (st, PRes.err (mkErr st "Unexpected nud token"))

termination_by structural a _ _ => a

/-- The `while rbp < self.token.lbp()` loop of `Parser::expr`.  `left` is the
accumulated `Result`; on the handled led tokens the Rust code calls
`left.unwrap()`, which panics when `left` is an `Err`. -/
def ledLoopF : Nat → PState → Nat → PRes Ast → PState × PRes Ast
  | 0, st, _, _ => (st, PRes.nofuel)
  | fuel+1, st, rbp, left =>
    match left with
    | PRes.nofuel => (st, PRes.nofuel)
    | PRes.panicked => (st, PRes.panicked)
    | _ =>
      if rbp < st.token.lbp then
        match st.token with
        | Token.dot =>
          match left with
          | PRes.ok l => let r := ledDotF fuel st l; ledLoopF fuel r.1 rbp r.2
          | _ => (st, PRes.panicked)
        | Token.lbracket =>
          match left with
          | PRes.ok l => let r := ledLbracketF fuel st l; ledLoopF fuel r.1 rbp r.2
          | _ => (st, PRes.panicked)
        | Token.flatten =>
          match left with
          | PRes.ok l => let r := ledFlattenF fuel st l; ledLoopF fuel r.1 rbp r.2
          | _ => (st, PRes.panicked)
        | Token.or =>
          match left with
          | PRes.ok l => let r := ledOrF fuel st l; ledLoopF fuel r.1 rbp r.2
          | _ => (st, PRes.panicked)
        | Token.pipe =>
          match left with
          | PRes.ok l => let r := ledPipeF fuel st l; ledLoopF fuel r.1 rbp r.2
          | _ => (st, PRes.panicked)
        | _ => (st, PRes.err (mkErr st "Unexpected led token"))
      else (st, left)

termination_by structural a _ _ _ => a

/-- Source `Parser::nud_lbracket`. -/
def nudLbracketF : Nat → PState → PState × PRes Ast
  | 0, st => (st, PRes.nofuel)
  | fuel+1, st =>
    let st1 := advanceSt st
    match st1.token with
    | Token.number _ _ => parseArrayIndexF fuel st1
    | Token.colon => parseArrayIndexF fuel st1
    | Token.star =>
      if st1.stream.head? ≠ some Token.rbracket then
        parseMultiListF fuel st1
      else
        tryBind (expectF st1 "Star") (fun st2 _ => parseWildcardIndexF fuel st2)
    | _ => parseMultiListF fuel st1

termination_by structural a _ => a

/-- Source `Parser::led_lbracket` (note: the left-hand side `lhs` is unused in the
source). -/
def ledLbracketF : Nat → PState → Ast → PState × PRes Ast
  | 0, st, _ => (st, PRes.nofuel)
  | fuel+1, st, _lhs =>
    tryBind (expectF st "Number|Colon|Star") (fun st1 _ =>
      match st1.token with
      | Token.number _ _ => parseArrayIndexF fuel st1
      | Token.colon => parseArrayIndexF fuel st1
      | _ => parseWildcardIndexF fuel st1)

termination_by structural a _ _ => a

/-- Source `Parser::nud_star`. -/
def nudStarF : Nat → PState → PState × PRes Ast
  | 0, st => (st, PRes.nofuel)
  | fuel+1, st => parseWildcardValuesF fuel (advanceSt st) Ast.CurrentNode

termination_by structural a _ => a

/-- Source `Parser::nud_flatten`: treated as a led flatten applied to `CurrentNode`. -/
def nudFlattenF : Nat → PState → PState × PRes Ast
  | 0, st => (st, PRes.nofuel)
  | fuel+1, st => ledFlattenF fuel st Ast.CurrentNode

termination_by structural a _ => a

/-- Source `Parser::nud_lbrace`. -/
def nudLbraceF : Nat → PState → PState × PRes Ast
  | 0, st => (st, PRes.nofuel)
  | fuel+1, st =>
    tryBind (lbraceLoopF fuel st []) (fun st1 pairs => (st1, PRes.ok (Ast.MultiHash pairs)))

termination_by structural a _ => a

/-- The loop of `Parser::nud_lbrace`: skip the opening brace or separating
comma, parse one key value pair, stop on `}`, continue on `,`. -/
def lbraceLoopF : Nat → PState → List KeyValuePair → PState × PRes (List KeyValuePair)
  | 0, st, _ => (st, PRes.nofuel)
  | fuel+1, st, pairs =>
    let st1 := advanceSt st
    tryBind (parseKvpF fuel st1) (fun st2 kvp =>
      let pairs' := pairs ++ [kvp]
      match st2.token with
      | Token.rbrace => (advanceSt st2, PRes.ok pairs')
      | Token.comma => lbraceLoopF fuel st2 pairs'
      | _ => (st2, PRes.err (mkErr st2 "Expected Rbrace or Comma")))

termination_by structural a _ _ => a

/-- Source `Parser::parse_kvp`.  Note that the source discards the `Result` of
`self.expect("Colon")` (no `try!`), keeping only its state effect. -/
def parseKvpF : Nat → PState → PState × PRes KeyValuePair
  | 0, st => (st, PRes.nofuel)
  | fuel+1, st =>
    match st.token with
    | Token.identifier name _ =>
      let st1 := (expectF st "Colon").1
      let st2 := advanceSt st1
      tryBind (exprF fuel st2 0) (fun st3 value =>
        (st3, PRes.ok ⟨Ast.Literal (Json.str name), value⟩))
    | _ => (st, PRes.err (mkErr st "Expected Identifier to start key value pair"))

termination_by structural a _ => a

/-- Source `Parser::led_flatten`. -/
def ledFlattenF : Nat → PState → Ast → PState × PRes Ast
  | 0, st, _ => (st, PRes.nofuel)
  | fuel+1, st, lhs =>
    tryBind (projectionRhsF fuel st Token.flatten.lbp) (fun st1 rhs =>
      (st1, PRes.ok (Ast.ArrayProjection (Ast.Flatten lhs) rhs)))

termination_by structural a _ _ => a

/-- Source `Parser::led_dot`. -/
def ledDotF : Nat → PState → Ast → PState × PRes Ast
  | 0, st, _ => (st, PRes.nofuel)
  | fuel+1, st, left =>
    tryBind (parseDotF fuel st Token.dot.lbp) (fun st1 rhs =>
      (st1, PRes.ok (Ast.Subexpr left rhs)))

termination_by structural a _ _ => a

/-- Source `Parser::led_or`. -/
def ledOrF : Nat → PState → Ast → PState × PRes Ast
  | 0, st, _ => (st, PRes.nofuel)
  | fuel+1, st, left =>
    let st1 := advanceSt st
    tryBind (exprF fuel st1 Token.or.lbp) (fun st2 rhs =>
      (st2, PRes.ok (Ast.Or left rhs)))

termination_by structural a _ _ => a

/-- Source `Parser::led_pipe`. -/
def ledPipeF : Nat → PState → Ast → PState × PRes Ast
  | 0, st, _ => (st, PRes.nofuel)
  | fuel+1, st, left =>
    let st1 := advanceSt st
    tryBind (exprF fuel st1 Token.pipe.lbp) (fun st2 rhs =>
      (st2, PRes.ok (Ast.Subexpr left rhs)))

termination_by structural a _ _ => a

/-- Source `Parser::parse_dot`. -/
def parseDotF : Nat → PState → Nat → PState × PRes Ast
  | 0, st, _ => (st, PRes.nofuel)
  | fuel+1, st, lbp =>
    tryBind (expectF st "Identifier|Star|Lbrace|Lbracket|Ampersand|Filter") (fun st1 _ =>
      match st1.token with
      | Token.lbracket => parseMultiListF fuel (advanceSt st1)
      | _ => exprF fuel st1 lbp)

termination_by structural a _ _ => a

/-- Source `Parser::projection_rhs` (the `lbp` parameter is shadowed by the current
token's binding power in the source). -/
def projectionRhsF : Nat → PState → Nat → PState × PRes Ast
  | 0, st, _ => (st, PRes.nofuel)
  | fuel+1, st, _lbp =>
    let lbp := st.token.lbp
    match st.token with
    | Token.dot => parseDotF fuel st lbp
    | Token.lbracket => exprF fuel st lbp
    | Token.filter => exprF fuel st lbp
    | _ =>
      if lbp < 10 then (st, PRes.ok Ast.CurrentNode)
      else (st, PRes.err (mkErr st "Syntax error found in projection"))

termination_by structural a _ _ => a

/-- Source `Parser::parse_wildcard_index`. -/
def parseWildcardIndexF : Nat → PState → PState × PRes Ast
  | 0, st => (st, PRes.nofuel)
  | fuel+1, st =>
    tryBind (expectF st "Rbracket") (fun st1 _ =>
      tryBind (projectionRhsF fuel st1 Token.star.lbp) (fun st2 rhs =>
        (st2, PRes.ok (Ast.ArrayProjection Ast.CurrentNode rhs))))

termination_by structural a _ => a

/-- Source `Parser::parse_wildcard_values`. -/
def parseWildcardValuesF : Nat → PState → Ast → PState × PRes Ast
  | 0, st, _ => (st, PRes.nofuel)
  | fuel+1, st, lhs =>
    tryBind (projectionRhsF fuel st Token.star.lbp) (fun st1 rhs =>
      (st1, PRes.ok (Ast.ObjectProjection lhs rhs)))

termination_by structural a _ _ => a

/-- Source `Parser::parse_array_index`: run the bracket scan, then either extract a
simple index (zero colons; `parts[0].unwrap()` panics if `parts[0]` is
`None`) or build a slice projection. -/
def parseArrayIndexF : Nat → PState → PState × PRes Ast
  | 0, st => (st, PRes.nofuel)
  | fuel+1, st =>
    tryBind (arrayIndexLoopF fuel st (none, none, none) 0) (fun st1 pp =>
      match pp with
      | (parts, pos) =>
        if pos = 0 then
          match parts.1 with
          | some v => (st1, PRes.ok (Ast.Index v))
          | none => (st1, PRes.panicked)
        else
          tryBind (projectionRhsF fuel st1 Token.star.lbp) (fun st2 rhs =>
            (st2, PRes.ok (Ast.ArrayProjection (Ast.Slice parts.1 parts.2.1 parts.2.2) rhs))))

termination_by structural a _ => a

/-- The scan loop of `Parser::parse_array_index`: accumulate up to three
optional integer parts and a colon count, stop at `]`.  A `pos` of three or
more at a number would index `parts` out of bounds in Rust (unreachable, as
the colon arm errors before `pos` can exceed 2). -/
def arrayIndexLoopF : Nat → PState → (Option Int × Option Int × Option Int) → Nat →
    PState × PRes ((Option Int × Option Int × Option Int) × Nat)
  | 0, st, _, _ => (st, PRes.nofuel)
  | fuel+1, st, parts, pos =>
    match st.token with
    | Token.colon =>
      let pos' := pos + 1
      if pos' > 2 then (st, PRes.err (mkErr st "Too many colons in slice expr"))
      else
        tryBind (expectF st "Number|Colon|Rbracket") (fun st1 _ =>
          arrayIndexLoopF fuel st1 parts pos')
    | Token.number v _ =>
      if pos ≥ 3 then (st, PRes.panicked)
      else
        let parts' := setPart parts pos v
        tryBind (expectF st "Colon|Rbracket") (fun st1 _ =>
          arrayIndexLoopF fuel st1 parts' pos)
    | Token.rbracket => (advanceSt st, PRes.ok (parts, pos))
    | _ => (st, PRes.err (mkErr st "Unexpected token"))

termination_by structural a _ _ _ => a

/-- Source `Parser::parse_multi_list`. -/
def parseMultiListF : Nat → PState → PState × PRes Ast
  | 0, st => (st, PRes.nofuel)
  | fuel+1, st =>
    tryBind (multiListLoopF fuel st []) (fun st1 nodes => (st1, PRes.ok (Ast.MultiList nodes)))

termination_by structural a _ => a

/-- The loop of `Parser::parse_multi_list`: parse an element, then advance
past a comma, stop at `]` (left unconsumed), or continue straight into the
next element on any other token. -/
def multiListLoopF : Nat → PState → List Ast → PState × PRes (List Ast)
  | 0, st, _ => (st, PRes.nofuel)
  | fuel+1, st, nodes =>
    tryBind (exprF fuel st 0) (fun st1 a =>
      let nodes' := nodes ++ [a]
      match st1.token with
      | Token.comma => multiListLoopF fuel (advanceSt st1) nodes'
      | Token.rbracket => (st1, PRes.ok nodes')
      | _ => multiListLoopF fuel st1 nodes')

termination_by structural a _ _ => a
end

/-- Source `Parser::parse`: parse `expr(0)`, then pull the next token from the
stream; succeed when the result is already an error, the stream is
exhausted, or the pulled token is `Eof`, otherwise fail with "Did not reach
token stream EOF".  Note the check inspects `self.stream.next()` — the token
after the current one — not the current token itself. -/
def parseP (fuel : Nat) (st : PState) : PState × PRes Ast :=
  match exprF fuel st 0 with
  | (st1, PRes.nofuel) => (st1, PRes.nofuel)
  | (st1, PRes.panicked) => (st1, PRes.panicked)
  | (st1, result) =>
    match st1.stream with
    | [] => (st1, result)
    | t :: rest =>
      let st2 : PState := ⟨rest, st1.token, st1.pos⟩
      match result with
      | PRes.err e => (st2, PRes.err e)
      | r =>
        if t = Token.eof then (st2, r)
        else (st2, PRes.err (mkErr st2 "Did not reach token stream EOF"))

/-- Source `Parser::new` followed by `Parser::parse`: the first token of the stream
becomes the current token (`stream.next().unwrap()` — panics on an empty
stream), then the expression is parsed. -/
def parseTokens (fuel : Nat) (toks : List Token) : PState × PRes Ast :=
  match toks with
  | [] => (⟨[], Token.eof, 0⟩, PRes.panicked)
  | t :: rest => parseP fuel ⟨rest, t, 0⟩

/-- Is this AST node a literal holding a JSON string? (the key shape the
grammar produces for multi-hash pairs). -/
def isStringLiteral : Ast → Bool
  | Ast.Literal (Json.str _) => true
  | _ => false

mutual
/-- Every key value pair occurring anywhere in the tree has a
string-literal key. -/
def goodKeys : Ast → Bool
  | Ast.Comparison _ a b => goodKeys a && goodKeys b
  | Ast.CurrentNode => true
  | Ast.Expref a => goodKeys a
  | Ast.Flatten a => goodKeys a
  | Ast.Function _ args => goodKeysList args
  | Ast.Identifier _ => true
  | Ast.Index _ => true
  | Ast.Literal _ => true
  | Ast.MultiList xs => goodKeysList xs
  | Ast.MultiHash ps => goodKeysPairs ps
  | Ast.ArrayProjection a b => goodKeys a && goodKeys b
  | Ast.ObjectProjection a b => goodKeys a && goodKeys b
  | Ast.Or a b => goodKeys a && goodKeys b
  | Ast.Slice _ _ _ => true
  | Ast.Subexpr a b => goodKeys a && goodKeys b

/-- List version of `goodKeys`. -/
def goodKeysList : List Ast → Bool
  | [] => true
  | a :: rest => goodKeys a && goodKeysList rest

/-- Pair-list version of `goodKeys`: each key is a string literal and each
value again satisfies `goodKeys`. -/
def goodKeysPairs : List KeyValuePair → Bool
  | [] => true
  | KeyValuePair.mk k v :: rest => isStringLiteral k && goodKeys v && goodKeysPairs rest
end

/-- Goodness of a parser outcome: a successful value satisfies `g`, an error
carries line 0, fuel exhaustion and panics are unconstrained. -/
def goodRes {α : Type} (g : α → Prop) : PRes α → Prop
  | PRes.ok a => g a
  | PRes.err e => e.line = 0
  | PRes.nofuel => True
  | PRes.panicked => True

/-- Goodness of an AST result. -/
def goodA (a : Ast) : Prop := goodKeys a = true

/-- Goodness of a key value pair result. -/
def goodKvpP (p : KeyValuePair) : Prop :=
  isStringLiteral p.key = true ∧ goodKeys p.value = true

/-- The simultaneous invariant of all parser functions, at a given fuel:
every successful result has string-literal multi-hash keys everywhere, and
every error carries line 0. -/
def ParserInv (fuel : Nat) : Prop :=
  (∀ st rbp, goodRes goodA (exprF fuel st rbp).2) ∧
  (∀ st rbp left, goodRes goodA left → goodRes goodA (ledLoopF fuel st rbp left).2) ∧
  (∀ st, goodRes goodA (nudLbracketF fuel st).2) ∧
  (∀ st lhs, goodRes goodA (ledLbracketF fuel st lhs).2) ∧
  (∀ st, goodRes goodA (nudStarF fuel st).2) ∧
  (∀ st, goodRes goodA (nudFlattenF fuel st).2) ∧
  (∀ st, goodRes goodA (nudLbraceF fuel st).2) ∧
  (∀ st pairs, goodKeysPairs pairs = true →
    goodRes (fun ps => goodKeysPairs ps = true) (lbraceLoopF fuel st pairs).2) ∧
  (∀ st, goodRes goodKvpP (parseKvpF fuel st).2) ∧
  (∀ st lhs, goodA lhs → goodRes goodA (ledFlattenF fuel st lhs).2) ∧
  (∀ st lhs, goodA lhs → goodRes goodA (ledDotF fuel st lhs).2) ∧
  (∀ st lhs, goodA lhs → goodRes goodA (ledOrF fuel st lhs).2) ∧
  (∀ st lhs, goodA lhs → goodRes goodA (ledPipeF fuel st lhs).2) ∧
  (∀ st lbp, goodRes goodA (parseDotF fuel st lbp).2) ∧
  (∀ st lbp, goodRes goodA (projectionRhsF fuel st lbp).2) ∧
  (∀ st, goodRes goodA (parseWildcardIndexF fuel st).2) ∧
  (∀ st lhs, goodA lhs → goodRes goodA (parseWildcardValuesF fuel st lhs).2) ∧
  (∀ st, goodRes goodA (parseArrayIndexF fuel st).2) ∧
  (∀ st parts pos, goodRes (fun _ => True) (arrayIndexLoopF fuel st parts pos).2) ∧
  (∀ st, goodRes goodA (parseMultiListF fuel st).2) ∧
  (∀ st nodes, goodKeysList nodes = true →
    goodRes (fun ns => goodKeysList ns = true) (multiListLoopF fuel st nodes).2)

/-- State of the parser on the token stream of the source text `[]`: the
flatten token is current and only the end-of-stream marker remains. -/
def flatSt : PState := ⟨[Token.eof], Token.flatten, 0⟩

theorem goodKeysList_append (xs ys : List Ast) :
    goodKeysList (xs ++ ys) = (goodKeysList xs && goodKeysList ys) := by
  induction xs with
  | nil => simp [goodKeysList]
  | cons a rest ih => simp [goodKeysList, ih, Bool.and_assoc]

theorem goodKeysPairs_append (xs ys : List KeyValuePair) :
    goodKeysPairs (xs ++ ys) = (goodKeysPairs xs && goodKeysPairs ys) := by
  induction xs with
  | nil => simp [goodKeysPairs]
  | cons p rest ih =>
    obtain ⟨k, v⟩ := p
    simp [goodKeysPairs, ih, Bool.and_assoc]

theorem mkErr_line (st : PState) (m : String) : (mkErr st m).line = 0 := rfl

theorem mkErr_col (st : PState) (m : String) : (mkErr st m).col = st.pos := rfl

theorem goodRes_tryBind {α β : Type} {g1 : α → Prop} {g2 : β → Prop}
    {r : PState × PRes α} {k : PState → α → PState × PRes β}
    (h1 : goodRes g1 r.2) (h2 : ∀ st a, g1 a → goodRes g2 (k st a).2) :
    goodRes g2 (tryBind r k).2 := by
  obtain ⟨st, res⟩ := r
  cases res with
  | ok a => exact h2 st a h1
  | err e => exact h1
  | nofuel => trivial
  | panicked => trivial

theorem goodRes_expect {g : Ast → Prop} (h : g Ast.CurrentNode)
    (st : PState) (s : String) : goodRes g (expectF st s).2 := by
  unfold expectF
  dsimp only
  split
  · exact h
  · exact rfl

theorem goodA_current : goodA Ast.CurrentNode := by simp [goodA, goodKeys]

theorem goodA_identifier (s : String) : goodA (Ast.Identifier s) := by
  simp [goodA, goodKeys]

theorem goodA_literal (v : Json) : goodA (Ast.Literal v) := by
  simp [goodA, goodKeys]

theorem goodA_index (n : Int) : goodA (Ast.Index n) := by
  simp [goodA, goodKeys]

theorem goodA_slice (a b c : Option Int) : goodA (Ast.Slice a b c) := by
  simp [goodA, goodKeys]

theorem goodA_flatten {a : Ast} (h : goodA a) : goodA (Ast.Flatten a) := by
  simp [goodA, goodKeys] at *
  exact h

theorem goodA_subexpr {a b : Ast} (h1 : goodA a) (h2 : goodA b) :
    goodA (Ast.Subexpr a b) := by
  simp [goodA, goodKeys] at *
  exact ⟨h1, h2⟩

theorem goodA_or {a b : Ast} (h1 : goodA a) (h2 : goodA b) :
    goodA (Ast.Or a b) := by
  simp [goodA, goodKeys] at *
  exact ⟨h1, h2⟩

theorem goodA_arrayProjection {a b : Ast} (h1 : goodA a) (h2 : goodA b) :
    goodA (Ast.ArrayProjection a b) := by
  simp [goodA, goodKeys] at *
  exact ⟨h1, h2⟩

theorem goodA_objectProjection {a b : Ast} (h1 : goodA a) (h2 : goodA b) :
    goodA (Ast.ObjectProjection a b) := by
  simp [goodA, goodKeys] at *
  exact ⟨h1, h2⟩

theorem goodA_multiList {xs : List Ast} (h : goodKeysList xs = true) :
    goodA (Ast.MultiList xs) := by
  simp [goodA, goodKeys]
  exact h

theorem goodA_multiHash {ps : List KeyValuePair} (h : goodKeysPairs ps = true) :
    goodA (Ast.MultiHash ps) := by
  simp [goodA, goodKeys]
  exact h

theorem goodKeysPairs_snoc {ps : List KeyValuePair} {k v : Ast}
    (h : goodKeysPairs ps = true) (hk : isStringLiteral k = true)
    (hv : goodKeys v = true) : goodKeysPairs (ps ++ [⟨k, v⟩]) = true := by
  rw [goodKeysPairs_append]
  simp [goodKeysPairs, h, hk, hv]

theorem goodKeysList_snoc {ns : List Ast} {a : Ast}
    (h : goodKeysList ns = true) (ha : goodKeys a = true) :
    goodKeysList (ns ++ [a]) = true := by
  rw [goodKeysList_append]
  simp [goodKeysList, h, ha]

theorem invAll : ∀ fuel, ParserInv fuel := by
  intro fuel
  induction fuel with
  | zero =>
    refine ⟨?_, ?_, ?_, ?_, ?_, ?_, ?_, ?_, ?_, ?_, ?_, ?_, ?_, ?_, ?_, ?_, ?_, ?_, ?_, ?_, ?_⟩ <;>
      intros <;> trivial
  | succ n ih =>
    obtain ⟨ihExpr, ihLed, ihNudLbk, ihLedLbk, ihNudStar, ihNudFlat, ihNudLbr, ihLbrLoop,
      ihKvp, ihLedFlat, ihLedDot, ihLedOr, ihLedPipe, ihDot, ihProj, ihWIdx, ihWVal,
      ihAIdx, ihAILoop, ihML, ihMLLoop⟩ := ih
    refine ⟨?_, ?_, ?_, ?_, ?_, ?_, ?_, ?_, ?_, ?_, ?_, ?_, ?_, ?_, ?_, ?_, ?_, ?_, ?_, ?_, ?_⟩
    -- exprF
    case _ =>
      intro st rbp
      obtain ⟨s, t, p⟩ := st
      cases t <;> simp only [exprF] <;>
        first
          | exact ihLed _ rbp _ goodA_current
          | exact ihLed _ rbp _ (goodA_identifier _)
          | exact ihLed _ rbp _ (goodA_literal _)
          | exact ihLed _ rbp _ (ihNudStar _)
          | exact ihLed _ rbp _ (ihNudLbk _)
          | exact ihLed _ rbp _ (ihNudFlat _)
          | exact ihLed _ rbp _ (ihNudLbr _)
          | exact rfl
    -- ledLoopF
    case _ =>
      intro st rbp left hleft
      cases left with
      | nofuel => simp only [ledLoopF]; trivial
      | panicked => simp only [ledLoopF]; trivial
      | ok l =>
        simp only [ledLoopF]
        split
        · obtain ⟨s, t, p⟩ := st
          cases t <;> dsimp only <;>
            first
              | exact ihLed _ rbp _ (ihLedDot _ _ hleft)
              | exact ihLed _ rbp _ (ihLedLbk _ _)
              | exact ihLed _ rbp _ (ihLedFlat _ _ hleft)
              | exact ihLed _ rbp _ (ihLedOr _ _ hleft)
              | exact ihLed _ rbp _ (ihLedPipe _ _ hleft)
              | exact rfl
        · exact hleft
      | err e =>
        simp only [ledLoopF]
        split
        · obtain ⟨s, t, p⟩ := st
          cases t <;> dsimp only <;> trivial
        · exact hleft
    -- nudLbracketF
    case _ =>
      intro st
      simp only [nudLbracketF]
      generalize advanceSt st = st1
      obtain ⟨s, t, p⟩ := st1
      cases t <;> dsimp only <;>
        first
          | exact ihAIdx _
          | exact ihML _
          | skip
      -- star case remains
      split
      · exact ihML _
      · exact goodRes_tryBind (goodRes_expect goodA_current _ _)
          (fun st2 _ _ => ihWIdx st2)
    -- ledLbracketF
    case _ =>
      intro st lhs
      simp only [ledLbracketF]
      refine goodRes_tryBind (goodRes_expect goodA_current _ _) ?_
      intro st1 _ _
      obtain ⟨s, t, p⟩ := st1
      cases t <;> first | exact ihAIdx _ | exact ihWIdx _
    -- nudStarF
    case _ =>
      intro st
      simp only [nudStarF]
      exact ihWVal _ _ goodA_current
    -- nudFlattenF
    case _ =>
      intro st
      simp only [nudFlattenF]
      exact ihLedFlat _ _ goodA_current
    -- nudLbraceF
    case _ =>
      intro st
      simp only [nudLbraceF]
      refine goodRes_tryBind (ihLbrLoop st [] (by simp [goodKeysPairs])) ?_
      intro st1 pairs hp
      exact goodA_multiHash hp
    -- lbraceLoopF
    case _ =>
      intro st pairs hpairs
      simp only [lbraceLoopF]
      refine goodRes_tryBind (ihKvp _) ?_
      intro st2 kvp hkvp
      obtain ⟨k, v⟩ := kvp
      have hk : isStringLiteral k = true := hkvp.1
      have hv : goodKeys v = true := hkvp.2
      obtain ⟨s, t, p⟩ := st2
      cases t <;> dsimp only <;>
        first
          | exact goodKeysPairs_snoc hpairs hk hv
          | exact ihLbrLoop _ _ (goodKeysPairs_snoc hpairs hk hv)
          | exact rfl
    -- parseKvpF
    case _ =>
      intro st
      simp only [parseKvpF]
      obtain ⟨s, t, p⟩ := st
      cases t <;> dsimp only <;>
        first
          | (refine goodRes_tryBind (ihExpr _ _) ?_
             intro st3 value hval
             exact ⟨rfl, hval⟩)
          | exact rfl
    -- ledFlattenF
    case _ =>
      intro st lhs hlhs
      simp only [ledFlattenF]
      refine goodRes_tryBind (ihProj _ _) ?_
      intro st1 rhs hrhs
      exact goodA_arrayProjection (goodA_flatten hlhs) hrhs
    -- ledDotF
    case _ =>
      intro st lhs hlhs
      simp only [ledDotF]
      refine goodRes_tryBind (ihDot _ _) ?_
      intro st1 rhs hrhs
      exact goodA_subexpr hlhs hrhs
    -- ledOrF
    case _ =>
      intro st lhs hlhs
      simp only [ledOrF]
      refine goodRes_tryBind (ihExpr _ _) ?_
      intro st1 rhs hrhs
      exact goodA_or hlhs hrhs
    -- ledPipeF
    case _ =>
      intro st lhs hlhs
      simp only [ledPipeF]
      refine goodRes_tryBind (ihExpr _ _) ?_
      intro st1 rhs hrhs
      exact goodA_subexpr hlhs hrhs
    -- parseDotF
    case _ =>
      intro st lbp
      simp only [parseDotF]
      refine goodRes_tryBind (goodRes_expect goodA_current _ _) ?_
      intro st1 _ _
      obtain ⟨s, t, p⟩ := st1
      cases t <;> first | exact ihML _ | exact ihExpr _ _
    -- projectionRhsF
    case _ =>
      intro st lbp
      simp only [projectionRhsF]
      obtain ⟨s, t, p⟩ := st
      cases t <;> dsimp only <;>
        first
          | exact ihDot _ _
          | exact ihExpr _ _
          | (split
             · exact goodA_current
             · exact rfl)
    -- parseWildcardIndexF
    case _ =>
      intro st
      simp only [parseWildcardIndexF]
      refine goodRes_tryBind (goodRes_expect goodA_current _ _) ?_
      intro st1 _ _
      refine goodRes_tryBind (ihProj _ _) ?_
      intro st2 rhs hrhs
      exact goodA_arrayProjection goodA_current hrhs
    -- parseWildcardValuesF
    case _ =>
      intro st lhs hlhs
      simp only [parseWildcardValuesF]
      refine goodRes_tryBind (ihProj _ _) ?_
      intro st1 rhs hrhs
      exact goodA_objectProjection hlhs hrhs
    -- parseArrayIndexF
    case _ =>
      intro st
      simp only [parseArrayIndexF]
      refine goodRes_tryBind (ihAILoop _ _ _) ?_
      intro st1 pp _
      obtain ⟨parts, pos⟩ := pp
      dsimp only
      split
      · cases hp : parts.1 with
        | some v => exact goodA_index v
        | none => trivial
      · refine goodRes_tryBind (ihProj _ _) ?_
        intro st2 rhs hrhs
        exact goodA_arrayProjection (goodA_slice _ _ _) hrhs
    -- arrayIndexLoopF
    case _ =>
      intro st parts pos
      simp only [arrayIndexLoopF]
      obtain ⟨s, t, p⟩ := st
      cases t
      case colon =>
        dsimp only
        split
        · exact rfl
        · exact goodRes_tryBind (@goodRes_expect (fun _ => True) True.intro _ _)
            (fun st1 _ _ => ihAILoop _ _ _)
      case number =>
        dsimp only
        split
        · trivial
        · exact goodRes_tryBind (@goodRes_expect (fun _ => True) True.intro _ _)
            (fun st1 _ _ => ihAILoop _ _ _)
      case rbracket => trivial
      all_goals exact rfl
    -- parseMultiListF
    case _ =>
      intro st
      simp only [parseMultiListF]
      refine goodRes_tryBind (ihMLLoop _ [] (by simp [goodKeysList])) ?_
      intro st1 nodes hn
      exact goodA_multiList hn
    -- multiListLoopF
    case _ =>
      intro st nodes hnodes
      simp only [multiListLoopF]
      refine goodRes_tryBind (ihExpr _ _) ?_
      intro st1 a ha
      obtain ⟨s, t, p⟩ := st1
      cases t <;> dsimp only <;>
        first
          | exact goodKeysList_snoc hnodes ha
          | exact ihMLLoop _ _ (goodKeysList_snoc hnodes ha)

theorem parseP_goodRes (fuel : Nat) (st : PState) : goodRes goodA (parseP fuel st).2 := by
  have hInv := (invAll fuel).1 st 0
  rcases h : exprF fuel st 0 with ⟨⟨stream, tok, poss⟩, r⟩
  rw [h] at hInv
  cases r with
  | nofuel => simp only [parseP, h]; trivial
  | panicked => simp only [parseP, h]; trivial
  | ok a =>
    simp only [parseP, h]
    cases stream with
    | nil => exact hInv
    | cons t rest =>
      dsimp only
      split
      · exact hInv
      · exact rfl
  | err e =>
    simp only [parseP, h]
    cases stream with
    | nil => exact hInv
    | cons t rest => exact hInv

theorem parseTokens_err_line (fuel : Nat) (toks : List Token) (st' : PState)
    (e : ParseError) (h : parseTokens fuel toks = (st', PRes.err e)) : e.line = 0 := by
  cases toks with
  | nil =>
    have hsnd := congrArg Prod.snd h
    simp [parseTokens] at hsnd
  | cons t rest =>
    have hg := parseP_goodRes fuel ⟨rest, t, 0⟩
    rw [show parseP fuel ⟨rest, t, 0⟩ = (st', PRes.err e) from h] at hg
    exact hg

theorem ledFlatten_flat (fuel : Nat) (lhs : Ast) :
    ledFlattenF (fuel + 2) flatSt lhs =
      (flatSt, PRes.ok (Ast.ArrayProjection (Ast.Flatten lhs) Ast.CurrentNode)) := rfl

theorem ledLoop_flat : ∀ fuel lhs,
    ledLoopF fuel flatSt 0 (PRes.ok lhs) = (flatSt, PRes.nofuel) := by
  intro fuel
  induction fuel with
  | zero => intro lhs; rfl
  | succ m ihm =>
    intro lhs
    match m with
    | 0 => rfl
    | 1 => rfl
    | k + 2 =>
      show ledLoopF (k + 2) (ledFlattenF (k + 2) flatSt lhs).1 0
        (ledFlattenF (k + 2) flatSt lhs).2 = (flatSt, PRes.nofuel)
      rw [ledFlatten_flat]
      exact ihm _

theorem expr_flat (fuel : Nat) : exprF fuel flatSt 0 = (flatSt, PRes.nofuel) := by
  match fuel with
  | 0 => rfl
  | 1 => rfl
  | 2 => rfl
  | 3 => rfl
  | k + 4 =>
    show ledLoopF (k + 3) (nudFlattenF (k + 3) flatSt).1 0
      (nudFlattenF (k + 3) flatSt).2 = (flatSt, PRes.nofuel)
    rw [show nudFlattenF (k + 3) flatSt =
      (flatSt, PRes.ok (Ast.ArrayProjection (Ast.Flatten Ast.CurrentNode) Ast.CurrentNode))
      from ledFlatten_flat k Ast.CurrentNode]
    exact ledLoop_flat (k + 3) _

theorem arrayIndexLoop_zero_colon : ∀ fuel st parts pos st1 parts1 pos1,
    (0 < pos ∨ parts.1.isSome = true ∨ (∃ v n, st.token = Token.number v n) ∨
      st.token = Token.colon) →
    arrayIndexLoopF fuel st parts pos = (st1, PRes.ok (parts1, pos1)) →
    pos1 = 0 → parts1.1.isSome = true := by
  intro fuel
  induction fuel with
  | zero =>
    intro st parts pos st1 parts1 pos1 hinv h hz
    have hsnd := congrArg Prod.snd h
    simp [arrayIndexLoopF] at hsnd
  | succ n ihn =>
    intro st parts pos st1 parts1 pos1 hinv h hz
    obtain ⟨s, t, p⟩ := st
    cases t
    case colon =>
      simp only [arrayIndexLoopF] at h
      split at h
      · exact absurd (congrArg Prod.snd h) (by simp)
      · rcases hE : expectF ⟨s, Token.colon, p⟩ "Number|Colon|Rbracket" with ⟨stE, rE⟩
        rw [hE] at h
        cases rE with
        | ok a =>
          simp only [tryBind] at h
          exact ihn stE parts (pos + 1) st1 parts1 pos1 (Or.inl (Nat.succ_pos pos)) h hz
        | err e =>
          simp only [tryBind] at h
          exact absurd (congrArg Prod.snd h) (by simp)
        | nofuel =>
          simp only [tryBind] at h
          exact absurd (congrArg Prod.snd h) (by simp)
        | panicked =>
          simp only [tryBind] at h
          exact absurd (congrArg Prod.snd h) (by simp)
    case number v sz =>
      simp only [arrayIndexLoopF] at h
      split at h
      · exact absurd (congrArg Prod.snd h) (by simp)
      · rcases hE : expectF ⟨s, Token.number v sz, p⟩ "Colon|Rbracket" with ⟨stE, rE⟩
        rw [hE] at h
        cases rE with
        | ok a =>
          simp only [tryBind] at h
          refine ihn stE (setPart parts pos v) pos st1 parts1 pos1 ?_ h hz
          rcases Nat.eq_zero_or_pos pos with hp0 | hppos
          · subst hp0
            exact Or.inr (Or.inl (by simp [setPart]))
          · exact Or.inl hppos
        | err e =>
          simp only [tryBind] at h
          exact absurd (congrArg Prod.snd h) (by simp)
        | nofuel =>
          simp only [tryBind] at h
          exact absurd (congrArg Prod.snd h) (by simp)
        | panicked =>
          simp only [tryBind] at h
          exact absurd (congrArg Prod.snd h) (by simp)
    case rbracket =>
      simp only [arrayIndexLoopF] at h
      rw [Prod.mk.injEq] at h
      obtain ⟨-, hB⟩ := h
      rw [PRes.ok.injEq, Prod.mk.injEq] at hB
      obtain ⟨hparts, hpos⟩ := hB
      subst hparts
      subst hpos
      rcases hinv with hp | hs | ⟨v, n, habs⟩ | habs
      · omega
      · exact hs
      · exact absurd habs (by simp)
      · exact absurd habs (by simp)
    all_goals
      simp only [arrayIndexLoopF] at h
      exact absurd (congrArg Prod.snd h) (by simp)

/-- C1 (code bug): the claim says that after `expr(0)` succeeds, `parse`
requires the next token to be the end-of-stream marker and fails with
"did not reach end of stream" on any trailing token.  The code instead
inspects `self.stream.next()` — the token after the current one — so exactly
one trailing token is silently accepted: on the token stream of `"@ @"`,
`parse` succeeds and returns `CurrentNode` although the second `@` remains
unconsumed. -/
theorem c1_single_trailing_token_accepted :
    parseTokens 100 [Token.at, Token.whitespace, Token.at, Token.eof] =
      (⟨[], Token.at, 2⟩, PRes.ok Ast.CurrentNode) := rfl

/-- C2 (code bug): the claim says a non-colon token after an identifier key
inside a multi-select hash yields a `ParseError`.  The source discards the
`Result` of `self.expect("Colon")` in `parse_kvp` (missing `try!`), so on
the token stream of `"{a b c}"` the malformed separator `b` is skipped and
the value is parsed anyway: `parse` succeeds with the pair `("a", c)`. -/
theorem c2_malformed_kvp_separator_skipped :
    parseTokens 100 [Token.lbrace, Token.identifier "a" 1, Token.whitespace,
        Token.identifier "b" 1, Token.whitespace, Token.identifier "c" 1,
        Token.rbrace, Token.eof] =
      (⟨[], Token.eof, 7⟩, PRes.ok (Ast.MultiHash
        [⟨Ast.Literal (Json.str "a"), Ast.Identifier "c"⟩])) := rfl

/-- C3 (confirmed): whenever the bracket scan of `parse_array_index`
completes with at least one colon seen, the result is
`ArrayProjection(Slice(start, stop, step), projection_rhs)`; in particular
the token stream of `"[-1:]"` yields
`ArrayProjection(Slice(Some(-1), None, None), CurrentNode)`, while a bracket
with zero colons and one number, `"[0]"`, yields the plain `Index(0)`. -/
theorem c3_slice_always_becomes_projection :
    (∀ fuel st st1 parts pos st2 rhs,
      arrayIndexLoopF fuel st (none, none, none) 0 = (st1, PRes.ok (parts, pos)) →
      0 < pos →
      projectionRhsF fuel st1 Token.star.lbp = (st2, PRes.ok rhs) →
      parseArrayIndexF (fuel + 1) st =
        (st2, PRes.ok (Ast.ArrayProjection
          (Ast.Slice parts.1 parts.2.1 parts.2.2) rhs))) ∧
    (parseTokens 100 [Token.lbracket, Token.number (-1) 2, Token.colon,
        Token.rbracket, Token.eof]).2 =
      PRes.ok (Ast.ArrayProjection (Ast.Slice (some (-1)) none none) Ast.CurrentNode) ∧
    (parseTokens 100 [Token.lbracket, Token.number 0 1, Token.rbracket,
        Token.eof]).2 = PRes.ok (Ast.Index 0) := by
  refine ⟨?_, rfl, rfl⟩
  intro fuel st st1 parts pos st2 rhs h1 hpos h3
  simp only [parseArrayIndexF, h1, tryBind]
  rw [if_neg (by omega : ¬ pos = 0)]
  simp only [h3, tryBind]

theorem c3_witness :
    parseArrayIndexF 51 ⟨[Token.colon, Token.rbracket, Token.eof],
        Token.number 2 1, 1⟩ =
      (⟨[], Token.eof, 4⟩,
        PRes.ok (Ast.ArrayProjection (Ast.Slice (some 2) none none)
          Ast.CurrentNode)) :=
  c3_slice_always_becomes_projection.1 50
    ⟨[Token.colon, Token.rbracket, Token.eof], Token.number 2 1, 1⟩
    ⟨[], Token.eof, 4⟩ (some 2, none, none) 1 ⟨[], Token.eof, 4⟩ Ast.CurrentNode
    rfl (by decide) rfl

/-- C4 (code bug): the claim says that on `[` with `*` next and `]` after
the `*`, the parser consumes `*]` and yields
`ArrayProjection(CurrentNode, projection_rhs)`.  In the source,
`expect("Star")` first advances past the `*` and then requires the *new*
current token (the `]`) to be a `Star`, so the token stream of `"[*]"`
always fails with "Expected one of the following tokens: Star".  The
fall-through branch of the claim does hold: with `*` not followed by `]`,
the bracket is parsed as a multi-select list with the `*` still current, as
the second conjunct shows on the token stream of `"[*, @]"`. -/
theorem c4_wildcard_index_errors :
    (parseTokens 100 [Token.lbracket, Token.star, Token.rbracket, Token.eof]).2 =
      PRes.err ⟨"Error at Rbracket token, 2: Expected one of the following tokens: \"Star\"",
        0, 2⟩ ∧
    (parseTokens 100 [Token.lbracket, Token.star, Token.comma, Token.whitespace,
        Token.at, Token.rbracket, Token.eof]).2 =
      PRes.ok (Ast.MultiList
        [Ast.ObjectProjection Ast.CurrentNode Ast.CurrentNode, Ast.CurrentNode]) :=
  ⟨rfl, rfl⟩

/-- C5 (confirmed): a third colon seen during the bracket scan makes
`parse_array_index` fail with "too many colons in slice": whenever the
colon count has reached two and another colon is current, the loop returns
the error, and the concrete token stream of `"[::::]"` fails that way. -/
theorem c5_too_many_colons :
    (∀ fuel st parts, st.token = Token.colon →
      (arrayIndexLoopF (fuel + 1) st parts 2).2 =
        PRes.err (mkErr st "Too many colons in slice expr")) ∧
    (parseTokens 100 [Token.lbracket, Token.colon, Token.colon, Token.colon,
        Token.colon, Token.rbracket, Token.eof]).2 =
      PRes.err ⟨"Error at Colon token, 3: Too many colons in slice expr", 0, 3⟩ := by
  refine ⟨?_, rfl⟩
  intro fuel st parts htok
  obtain ⟨s, t, p⟩ := st
  dsimp only at htok
  subst htok
  simp [arrayIndexLoopF]

theorem c5_witness :
    (arrayIndexLoopF 8 ⟨[Token.rbracket, Token.eof], Token.colon, 3⟩
        ((none : Option Int), (none : Option Int), (none : Option Int)) 2).2 =
      PRes.err (mkErr ⟨[Token.rbracket, Token.eof], Token.colon, 3⟩
        "Too many colons in slice expr") :=
  c5_too_many_colons.1 7 ⟨[Token.rbracket, Token.eof], Token.colon, 3⟩
    (none, none, none) rfl

/-- C6 counterexample: the claim says every `ParseError`'s `col` equals the
accumulated sizes of the consumed tokens.  On the token stream of `"ab
,,"` (identifier of size 2, two whitespace tokens, two commas), `advance`
re-adds the identifier's size once per skipped whitespace token instead of
the whitespace's own size, so at failure `col = 6` although the consumed
tokens (identifier + two whitespace) total `2 + 1 + 1 = 4`. -/
theorem c6_counterexample_pos_drift :
    (parseTokens 100 [Token.identifier "ab" 2, Token.whitespace, Token.whitespace,
        Token.comma, Token.comma, Token.eof]).2 =
      PRes.err ⟨"Error at Comma token, 6: Did not reach token stream EOF", 0, 6⟩ ∧
    Token.size (Token.identifier "ab" 2) + Token.size Token.whitespace +
      Token.size Token.whitespace = 4 ∧
    (6 : Nat) ≠ 4 :=
  ⟨rfl, rfl, by decide⟩

/-- C6 (amended): every `ParseError` produced by `parse` carries line 0, and
`Parser::err` sets the column to the parser's running `pos` counter; `pos`
is advanced by adding the then-current token's size once per token pulled
from the stream, so a non-whitespace pull adds exactly the consumed current
token's size, while a whitespace pull re-adds the current token's size
(never the whitespace's own size).  Hence `col` equals the accumulated
sizes of consumed tokens only on whitespace-free streams. -/
theorem c6_error_line_zero_col_pos :
    (∀ fuel toks st' e, parseTokens fuel toks = (st', PRes.err e) → e.line = 0) ∧
    (∀ st m, (mkErr st m).line = 0 ∧ (mkErr st m).col = st.pos) ∧
    (∀ tok p t rest, t ≠ Token.whitespace →
      advanceSt ⟨t :: rest, tok, p⟩ = ⟨rest, t, p + tok.size⟩) ∧
    (∀ tok p rest,
      advanceSt ⟨Token.whitespace :: rest, tok, p⟩ =
        advanceSt ⟨rest, tok, p + tok.size⟩) := by
  refine ⟨parseTokens_err_line, fun st m => ⟨rfl, rfl⟩, ?_, fun tok p rest => rfl⟩
  intro tok p t rest ht
  cases t <;> first | exact absurd rfl ht | rfl

theorem c6_witness :
    (⟨"Error at Comma token, 6: Did not reach token stream EOF", 0, 6⟩ :
      ParseError).line = 0 ∧
    advanceSt ⟨Token.comma :: [Token.eof], Token.identifier "ab" 2, 0⟩ =
      ⟨[Token.eof], Token.comma, 0 + (Token.identifier "ab" 2).size⟩ :=
  ⟨c6_error_line_zero_col_pos.1 100
      [Token.identifier "ab" 2, Token.whitespace, Token.whitespace, Token.comma,
        Token.comma, Token.eof]
      ⟨[Token.eof], Token.comma, 6⟩
      ⟨"Error at Comma token, 6: Did not reach token stream EOF", 0, 6⟩ rfl,
   c6_error_line_zero_col_pos.2.2.1 (Token.identifier "ab" 2) 0 Token.comma
      [Token.eof] (by decide)⟩

/-- C7 (confirmed): on every successful parse, every `KeyValuePair` anywhere
in the returned AST has a key that is a `Literal` holding a JSON string (and
pairs occur only as the immediate children of a `MultiHash`, which is forced
by the shape of the `Ast` type itself). -/
theorem c7_multihash_keys_are_string_literals (fuel : Nat) (toks : List Token)
    (st' : PState) (a : Ast) (h : parseTokens fuel toks = (st', PRes.ok a)) :
    goodKeys a = true := by
  cases toks with
  | nil =>
    have hsnd := congrArg Prod.snd h
    simp [parseTokens] at hsnd
  | cons t rest =>
    have hg := parseP_goodRes fuel ⟨rest, t, 0⟩
    rw [show parseP fuel ⟨rest, t, 0⟩ = (st', PRes.ok a) from h] at hg
    exact hg

theorem c7_witness :
    goodKeys (Ast.MultiHash [⟨Ast.Literal (Json.str "foo"), Ast.Identifier "bar"⟩]) =
      true :=
  c7_multihash_keys_are_string_literals 100
    [Token.lbrace, Token.identifier "foo" 3, Token.colon, Token.whitespace,
      Token.identifier "bar" 3, Token.rbrace, Token.eof]
    ⟨[], Token.eof, 10⟩
    (Ast.MultiHash [⟨Ast.Literal (Json.str "foo"), Ast.Identifier "bar"⟩]) rfl

/-- C8 (code bug): the claim says `parse` terminates on every finite token
stream ending in the end-of-stream marker, because every loop iteration
consumes a token or errors.  Neither `nud_flatten` nor `led_flatten` ever
advances past the `Flatten` token, so on the token stream of `"[]"` the led
loop of `expr` re-enters `led_flatten` with an unchanged state forever:
for every fuel bound the embedded parser runs out of fuel, i.e. the Rust
code never returns. -/
theorem c8_flatten_never_terminates (fuel : Nat) :
    parseTokens fuel [Token.flatten, Token.eof] = (flatSt, PRes.nofuel) := by
  show parseP fuel flatSt = (flatSt, PRes.nofuel)
  simp only [parseP, expr_flat]

/-- C9 counterexample: the claim ends by asserting that, whenever the
current token is a number or a colon, `parse_array_index` "totally returns
`Index(n)`, an `ArrayProjection`, or a `ParseError`".  At the state whose
current token is `:` with the remaining stream of `"].a[["`, the slice
path's nested expression parse reaches `expr`'s `left.unwrap()` on an `Err`
(the second `[` makes `led_lbracket`'s `expect` fail while `[` still has a
binding power above the loop threshold), so the function panics instead. -/
theorem c9_counterexample_slice_path_panics :
    (parseArrayIndexF 50 ⟨[Token.rbracket, Token.dot, Token.identifier "a" 1,
        Token.lbracket, Token.lbracket, Token.eof], Token.colon, 0⟩).2 =
      PRes.panicked ∧
    (⟨[Token.rbracket, Token.dot, Token.identifier "a" 1, Token.lbracket,
        Token.lbracket, Token.eof], Token.colon, 0⟩ : PState).token =
      Token.colon :=
  ⟨rfl, rfl⟩

/-- C9 (amended): when `parse_array_index` starts on a number or a colon
(the only situations its two call sites allow), a bracket scan that
completes with zero colons necessarily has `parts[0] = Some`, so the
`unwrap` on the index path cannot panic and that path returns
`Index(parts[0])`; only the slice path's nested expression parse can still
panic or fail to terminate. -/
theorem c9_zero_colon_index_unwrap_safe (fuel : Nat) (st : PState)
    (hpre : (∃ v n, st.token = Token.number v n) ∨ st.token = Token.colon)
    (st1 : PState) (parts : Option Int × Option Int × Option Int)
    (h : arrayIndexLoopF fuel st (none, none, none) 0 = (st1, PRes.ok (parts, 0))) :
    ∃ v, parts.1 = some v ∧
      parseArrayIndexF (fuel + 1) st = (st1, PRes.ok (Ast.Index v)) := by
  have hsome : parts.1.isSome = true := by
    refine arrayIndexLoop_zero_colon fuel st (none, none, none) 0 st1 parts 0 ?_ h rfl
    rcases hpre with ⟨v, n, hv⟩ | hc
    · exact Or.inr (Or.inr (Or.inl ⟨v, n, hv⟩))
    · exact Or.inr (Or.inr (Or.inr hc))
  obtain ⟨v, hv⟩ := Option.isSome_iff_exists.mp hsome
  refine ⟨v, hv, ?_⟩
  simp only [parseArrayIndexF, h, tryBind]
  simp [hv]

theorem c9_witness :
    ∃ v, ((some (0 : Int)), (none : Option Int), (none : Option Int)).1 = some v ∧
      parseArrayIndexF 49 ⟨[Token.rbracket, Token.eof], Token.number 0 1, 1⟩ =
        (⟨[], Token.eof, 3⟩, PRes.ok (Ast.Index v)) :=
  c9_zero_colon_index_unwrap_safe 48 ⟨[Token.rbracket, Token.eof], Token.number 0 1, 1⟩
    (Or.inl ⟨0, 1, rfl⟩) ⟨[], Token.eof, 3⟩ (some 0, none, none) rfl

/-- C10 (confirmed): in multi-select list parsing, after an element is
parsed, a current token that is neither `,` nor `]` makes the loop continue
straight into parsing another full expression at that token instead of
erroring; consequently adjacent elements without a separating comma are
accepted in order, as the token stream of `"[a b]"` shows. -/
theorem c10_missing_comma_accepted :
    (∀ fuel st st1 a nodes, exprF fuel st 0 = (st1, PRes.ok a) →
      st1.token ≠ Token.comma → st1.token ≠ Token.rbracket →
      multiListLoopF (fuel + 1) st nodes = multiListLoopF fuel st1 (nodes ++ [a])) ∧
    (parseTokens 100 [Token.lbracket, Token.identifier "a" 1, Token.whitespace,
        Token.identifier "b" 1, Token.rbracket, Token.eof]).2 =
      PRes.ok (Ast.MultiList [Ast.Identifier "a", Ast.Identifier "b"]) := by
  refine ⟨?_, rfl⟩
  intro fuel st st1 a nodes h hc hr
  simp only [multiListLoopF, h, tryBind]

theorem c10_witness :
    multiListLoopF 11 ⟨[Token.identifier "b" 1, Token.rbracket, Token.eof],
        Token.identifier "a" 1, 0⟩ [] =
      multiListLoopF 10 ⟨[Token.rbracket, Token.eof], Token.identifier "b" 1, 1⟩
        [Ast.Identifier "a"] :=
  c10_missing_comma_accepted.1 10
    ⟨[Token.identifier "b" 1, Token.rbracket, Token.eof], Token.identifier "a" 1, 0⟩
    ⟨[Token.rbracket, Token.eof], Token.identifier "b" 1, 1⟩ (Ast.Identifier "a") []
    rfl (by decide) (by decide)
